import Mathlib

/-!
A Lean model of `pysqlitedb` (`pysqlitedb/db.py`): schema declaration
(`Column`, `Table`, `create_table_sql`), the `DB` handle's value coercion
(`value_for_db`), the SQL string builders (`insert_sql`, `update_sql`),
the row operations (`insert_row`, `update_row`) with Python-dict
merge-after-default semantics, the lazily opened connection with its
pragma statements, and the shared mutable default arguments of the
`attr.s` class.  Theorems below check the documented properties of these
operations against this model.
-/

/-- Model of a Python `datetime` value.  `wall` is the wall-clock reading
of the value in seconds (the calendar fields collapsed to one integer;
the calendar rendering is abstracted to the decimal rendering of this
integer), and `offset` is `utcoffset()` in seconds: `none` for a naive
datetime, `some o` for an aware one. -/
structure PyDatetime where
  wall : Int
  offset : Option Int
deriving DecidableEq

/-- `utcoffset()` of a datetime: `none` when naive, the offset in seconds
when aware. -/
def PyDatetime.utcoffset (v : PyDatetime) : Option Int :=
  v.offset

/-- Model of `astimezone(pytz.UTC)`: the represented instant is kept and
the result is aware with a zero offset.  A naive datetime is interpreted
in the local timezone, whose offset `localOff` (seconds) is a parameter
of the model. -/
def astimezoneUTC (localOff : Int) (v : PyDatetime) : PyDatetime :=
  { wall := v.wall - (v.offset.getD localOff), offset := some 0 }

/-- Two-digit zero-padded decimal rendering, for offset fields. -/
def twoDigits (n : Nat) : String :=
  if n < 10 then "0" ++ toString n else toString n

/-- Rendering of a `utcoffset` as the ISO-8601 designator that
`datetime.isoformat` appends: empty for a naive value, `±HH:MM` for an
aware one (`+00:00` for UTC). -/
def offsetSuffix : Option Int → String
  | none => ""
  | some o =>
    (if o < 0 then "-" else "+") ++ twoDigits (o.natAbs / 3600) ++ ":"
      ++ twoDigits (o.natAbs % 3600 / 60)

/-- Model of `datetime.isoformat()`: the date-time fields (abstracted to
the decimal rendering of `wall`) followed by the offset designator. -/
def isoformat (v : PyDatetime) : String :=
  toString v.wall ++ offsetSuffix v.offset

/-- Model of `datetime.now().astimezone(pytz.UTC)` (`DB.utcnow`): `now`
is the local wall-clock reading, `localOff` the local UTC offset in
seconds; the result is aware with a zero offset. -/
def utcnow (localOff now : Int) : PyDatetime :=
  astimezoneUTC localOff { wall := now, offset := none }

/-- A value bound as a SQL parameter.  The `dt` constructor is the
`datetime` case of `value_for_db`'s single dispatch; the remaining
constructors stand for the values the default case passes through. -/
inductive Value where
  | none : Value
  | int : Int → Value
  | text : String → Value
  | dt : PyDatetime → Value
deriving DecidableEq

/-- True exactly on the `datetime` case of `Value`. -/
def Value.isDt : Value → Bool
  | .dt _ => true
  | _ => false

/-- Model of `DB.value_for_db`: the `datetime` register asserts
`utcoffset() is None or utcoffset() == timedelta(0)` (failure message
`Must be UTC`, abbreviating the source's interpolated message) and
returns `v.astimezone(pytz.UTC).isoformat()`; the default single-dispatch
case returns the value unchanged. -/
def value_for_db (localOff : Int) : Value → Except String Value
  | .dt v =>
    if v.utcoffset = Option.none ∨ v.utcoffset = some 0 then
      .ok (.text (isoformat (astimezoneUTC localOff v)))
    else
      .error "Must be UTC"
  | v => .ok v

/-- C8: value coercion is the identity on every non-`datetime` value. -/
theorem value_for_db_id_of_not_dt (localOff : Int) (v : Value)
    (h : v.isDt = false) : value_for_db localOff v = .ok v := by
  cases v <;> simp_all [Value.isDt, value_for_db]

/-- Witness for C8 at the concrete non-datetime value `7`. -/
theorem value_for_db_id_of_not_dt_witness :
    (Value.int 7).isDt = false ∧ value_for_db 0 (Value.int 7) = .ok (Value.int 7) :=
  ⟨rfl, value_for_db_id_of_not_dt 0 (Value.int 7) rfl⟩

/-- C3: coercing a `datetime` with a non-zero explicit offset fails with
the `Must be UTC` precondition failure; one with no offset or an explicit
zero offset succeeds and yields a string carrying the explicit UTC
designator `+00:00` as a suffix. -/
theorem value_for_db_datetime_utc (localOff : Int) (v : PyDatetime) :
    (∀ o : Int, v.utcoffset = some o → o ≠ 0 →
      value_for_db localOff (.dt v) = .error "Must be UTC")
    ∧ ((v.utcoffset = Option.none ∨ v.utcoffset = some 0) →
      ∃ s : String, value_for_db localOff (.dt v) = .ok (.text s)
        ∧ ("+00:00" : String).data <:+ s.data) := by
  constructor
  · intro o ho hne
    simp only [value_for_db, ho]
    rw [if_neg]
    simp only [Option.some.injEq]
    push_neg
    exact ⟨by simp, fun h => absurd h hne⟩
  · intro h
    refine ⟨isoformat (astimezoneUTC localOff v), ?_, ?_⟩
    · simp [value_for_db, h]
    · have hoff : (astimezoneUTC localOff v).offset = some 0 := rfl
      have hsuf : offsetSuffix (some 0) = "+00:00" := by decide
      have : isoformat (astimezoneUTC localOff v)
          = toString (astimezoneUTC localOff v).wall ++ "+00:00" := by
        rw [isoformat, hoff, hsuf]
      rw [this, String.data_append]
      exact List.suffix_append _ _

/-- Witness for C3: offset `+05:00` (18000 s) fails, offset `+00:00`
succeeds with a `+00:00`-suffixed string. -/
theorem value_for_db_datetime_utc_witness :
    value_for_db 0 (.dt ⟨0, some 18000⟩) = .error "Must be UTC"
    ∧ ∃ s : String, value_for_db 0 (.dt ⟨0, some 0⟩) = .ok (.text s)
        ∧ ("+00:00" : String).data <:+ s.data :=
  ⟨(value_for_db_datetime_utc 0 ⟨0, some 18000⟩).1 18000 rfl (by decide),
   (value_for_db_datetime_utc 0 ⟨0, some 0⟩).2 (Or.inr rfl)⟩

/-- C10: `utcnow` always returns an aware instant with a zero UTC offset,
so value coercion of every auto-generated `created_at`/`updated_at`
timestamp succeeds (the `Must be UTC` branch is unreachable for them). -/
theorem utcnow_is_utc (localOff now localOff' : Int) :
    (utcnow localOff now).utcoffset = some 0
    ∧ ∃ s : String,
        value_for_db localOff' (.dt (utcnow localOff now)) = .ok (.text s) := by
  refine ⟨rfl, isoformat (astimezoneUTC localOff' (utcnow localOff now)), ?_⟩
  simp [value_for_db, utcnow, astimezoneUTC, PyDatetime.utcoffset]

/-- Keys of a Python dict modelled as an association list (Python dicts
have pairwise-distinct keys; theorems assume `Nodup` where needed). -/
def dictKeys (d : List (String × Value)) : List String :=
  d.map Prod.fst

/-- One step of building a Python dict literal: binding key `k` to `v`
updates the value in place (keeping the key's position) when `k` is
already present, and appends the new pair otherwise. -/
def dictInsert (d : List (String × Value)) (k : String) (v : Value) :
    List (String × Value) :=
  if k ∈ dictKeys d then
    d.map (fun p => if p.1 = k then (k, v) else p)
  else
    d ++ [(k, v)]

/-- Model of the Python dict literal `{**d, **kvs}`: the entries of
`kvs` are bound one by one on top of `d`. -/
def dictMerge (d kvs : List (String × Value)) : List (String × Value) :=
  kvs.foldl (fun acc p => dictInsert acc p.1 p.2) d

theorem lookup_cons_of_eq {k k' : String} {v : Value} {d : List (String × Value)}
    (h : k' = k) : List.lookup k' ((k, v) :: d) = some v := by
  rw [List.lookup_cons]
  simp [h]

theorem lookup_cons_of_ne {k k' : String} {v : Value} {d : List (String × Value)}
    (h : k' ≠ k) : List.lookup k' ((k, v) :: d) = List.lookup k' d := by
  rw [List.lookup_cons]
  simp [beq_false_of_ne h]

theorem lookup_eq_none_of_not_mem_keys {k : String} {d : List (String × Value)}
    (h : k ∉ dictKeys d) : List.lookup k d = none := by
  induction d with
  | nil => rfl
  | cons p d ih =>
    obtain ⟨a, b⟩ := p
    simp only [dictKeys, List.map_cons, List.mem_cons, not_or] at h
    rw [lookup_cons_of_ne h.1]
    exact ih h.2

theorem lookup_map_update_self (d : List (String × Value)) (k : String) (v : Value) :
    List.lookup k (d.map (fun p => if p.1 = k then (k, v) else p))
      = (List.lookup k d).map (fun _ => v) := by
  induction d with
  | nil => rfl
  | cons p d ih =>
    obtain ⟨a, b⟩ := p
    simp only [List.map_cons]
    by_cases hp : a = k
    · rw [if_pos hp, lookup_cons_of_eq rfl, lookup_cons_of_eq hp.symm]
      rfl
    · have hkp : k ≠ a := fun h => hp h.symm
      rw [if_neg hp, lookup_cons_of_ne hkp, lookup_cons_of_ne hkp, ih]

theorem lookup_map_update_other (d : List (String × Value)) (k : String) (v : Value)
    (k' : String) (hne : k' ≠ k) :
    List.lookup k' (d.map (fun p => if p.1 = k then (k, v) else p))
      = List.lookup k' d := by
  induction d with
  | nil => rfl
  | cons p d ih =>
    obtain ⟨a, b⟩ := p
    simp only [List.map_cons]
    by_cases hp : a = k
    · have hnp : k' ≠ a := fun h => hne (h.trans hp)
      rw [if_pos hp, lookup_cons_of_ne hne, lookup_cons_of_ne hnp, ih]
    · by_cases hk' : k' = a
      · rw [if_neg hp, lookup_cons_of_eq hk', lookup_cons_of_eq hk']
      · rw [if_neg hp, lookup_cons_of_ne hk', lookup_cons_of_ne hk', ih]

theorem lookup_append_single_of_not_mem (d : List (String × Value)) (k : String)
    (v : Value) (h : k ∉ dictKeys d) (k' : String) :
    List.lookup k' (d ++ [(k, v)]) = if k' = k then some v else List.lookup k' d := by
  induction d with
  | nil =>
    simp only [List.nil_append]
    by_cases hk : k' = k
    · rw [lookup_cons_of_eq hk, if_pos hk]
    · rw [lookup_cons_of_ne hk, if_neg hk, List.lookup_nil]
  | cons p d ih =>
    obtain ⟨a, b⟩ := p
    simp only [dictKeys, List.map_cons, List.mem_cons, not_or] at h
    by_cases hk' : k' = a
    · have hne : k' ≠ k := fun he => h.1 (he.symm.trans hk')
      rw [List.cons_append, lookup_cons_of_eq hk', lookup_cons_of_eq hk', if_neg hne]
    · rw [List.cons_append, lookup_cons_of_ne hk', lookup_cons_of_ne hk', ih h.2]

theorem lookup_isSome_of_mem_keys {k : String} {d : List (String × Value)}
    (h : k ∈ dictKeys d) : (List.lookup k d).isSome = true := by
  induction d with
  | nil => simp [dictKeys] at h
  | cons p d ih =>
    obtain ⟨a, b⟩ := p
    by_cases hk : k = a
    · rw [lookup_cons_of_eq hk]
      rfl
    · simp only [dictKeys, List.map_cons, List.mem_cons] at h
      rcases h with h | h
      · exact absurd h hk
      · rw [lookup_cons_of_ne hk]
        exact ih h

theorem lookup_dictInsert (d : List (String × Value)) (k : String) (v : Value)
    (k' : String) :
    List.lookup k' (dictInsert d k v) = if k' = k then some v else List.lookup k' d := by
  rw [dictInsert]
  by_cases hmem : k ∈ dictKeys d
  · rw [if_pos hmem]
    by_cases hk : k' = k
    · subst hk
      rw [lookup_map_update_self, if_pos rfl]
      obtain ⟨w, hw⟩ := Option.isSome_iff_exists.mp (lookup_isSome_of_mem_keys hmem)
      rw [hw]
      rfl
    · rw [if_neg hk, lookup_map_update_other d k v k' hk]
  · rw [if_neg hmem]
    exact lookup_append_single_of_not_mem d k v hmem k'

theorem head_fst_dictInsert (d : List (String × Value)) (k : String) (v : Value)
    (hne : d ≠ []) :
    (dictInsert d k v).head?.map Prod.fst = d.head?.map Prod.fst
    ∧ dictInsert d k v ≠ [] := by
  rw [dictInsert]
  by_cases hmem : k ∈ dictKeys d
  · rw [if_pos hmem]
    cases d with
    | nil => exact absurd rfl hne
    | cons p d =>
      obtain ⟨a, b⟩ := p
      refine ⟨?_, by simp⟩
      by_cases hp : a = k
      · simp [hp]
      · simp [hp]
  · rw [if_neg hmem]
    cases d with
    | nil => exact absurd rfl hne
    | cons p d => exact ⟨by simp, by simp⟩

theorem head_fst_dictMerge (kvs : List (String × Value)) :
    ∀ d : List (String × Value), d ≠ [] →
      (dictMerge d kvs).head?.map Prod.fst = d.head?.map Prod.fst
      ∧ dictMerge d kvs ≠ [] := by
  induction kvs with
  | nil => exact fun d hd => ⟨rfl, hd⟩
  | cons p kvs ih =>
    intro d hd
    have h1 := head_fst_dictInsert d p.1 p.2 hd
    have h2 := ih (dictInsert d p.1 p.2) h1.2
    exact ⟨h2.1.trans h1.1, h2.2⟩

theorem dictMerge_of_disjoint :
    ∀ (kvs d : List (String × Value)),
      (∀ k ∈ dictKeys kvs, k ∉ dictKeys d) → (dictKeys kvs).Nodup →
      dictMerge d kvs = d ++ kvs := by
  intro kvs
  induction kvs with
  | nil => intro d _ _; simp [dictMerge]
  | cons p kvs ih =>
    intro d hdisj hnd
    obtain ⟨a, b⟩ := p
    have ha : a ∉ dictKeys d := hdisj a (by simp [dictKeys])
    have step : dictInsert d a b = d ++ [(a, b)] := by rw [dictInsert, if_neg ha]
    simp only [dictKeys, List.map_cons, List.nodup_cons] at hnd
    have hdisj' : ∀ k ∈ dictKeys kvs, k ∉ dictKeys (d ++ [(a, b)]) := by
      intro k hk
      simp only [dictKeys, List.map_append, List.map_cons, List.map_nil,
        List.mem_append, List.mem_singleton, not_or]
      refine ⟨hdisj k (by simp only [dictKeys, List.map_cons]; exact List.mem_cons_of_mem a hk), ?_⟩
      intro he
      exact hnd.1 (he ▸ hk)
    have hstep : dictMerge d ((a, b) :: kvs) = dictMerge (d ++ [(a, b)]) kvs := by
      show dictMerge (dictInsert d a b) kvs = _
      rw [step]
    rw [hstep, ih (d ++ [(a, b)]) hdisj' hnd.2, List.append_assoc]
    rfl

theorem lookup_dictMerge :
    ∀ (kvs d : List (String × Value)), (dictKeys kvs).Nodup → ∀ k : String,
      List.lookup k (dictMerge d kvs)
        = (List.lookup k kvs).or (List.lookup k d) := by
  intro kvs
  induction kvs with
  | nil =>
    intro d _ k
    rw [List.lookup_nil, Option.none_or]
    rfl
  | cons p kvs ih =>
    intro d hnd k
    obtain ⟨a, b⟩ := p
    simp only [dictKeys, List.map_cons, List.nodup_cons] at hnd
    have hstep : dictMerge d ((a, b) :: kvs) = dictMerge (dictInsert d a b) kvs := rfl
    rw [hstep, ih (dictInsert d a b) hnd.2 k, lookup_dictInsert]
    by_cases hk : k = a
    · have hnone : List.lookup k kvs = none :=
        lookup_eq_none_of_not_mem_keys (hk ▸ hnd.1)
      rw [hnone, Option.none_or, if_pos hk, lookup_cons_of_eq hk, Option.or_some]
    · rw [if_neg hk, lookup_cons_of_ne hk]

/-- Python's `sep.join(strings)`: the strings concatenated with `sep`
between consecutive elements. -/
def joinSep (sep : String) : List String → String
  | [] => ""
  | [x] => x
  | x :: y :: xs => x ++ sep ++ joinSep sep (y :: xs)

/-- The `InsertFallback` literal type: the three conflict-resolution
options accepted by `insert_row`. -/
inductive InsertFallback where
  | REPLACE : InsertFallback
  | IGNORE : InsertFallback
  | ROLLBACK : InsertFallback
deriving DecidableEq

/-- The SQL keyword of each fallback option. -/
def InsertFallback.toStr : InsertFallback → String
  | .REPLACE => "REPLACE"
  | .IGNORE => "IGNORE"
  | .ROLLBACK => "ROLLBACK"

/-- Model of `insert_sql`: joins the dict's keys as the column list and
one `?` placeholder per entry, into
`INSERT OR <fallback> INTO <tablename>(<columns>) VALUES(<placeholders>)`. -/
def insert_sql (tablename : String) (values : List (String × Value))
    (fallback : InsertFallback) : String :=
  "INSERT OR " ++ fallback.toStr ++ " INTO " ++ tablename
    ++ "(" ++ joinSep ", " (values.map Prod.fst)
    ++ ") VALUES(" ++ joinSep ", " (values.map (fun _ => "?")) ++ ")"

/-- The `set_clause` local of `update_sql`: `k = ?` per entry, comma
joined. -/
def set_clause (values : List (String × Value)) : String :=
  joinSep ", " (values.map (fun p => p.1 ++ " = ?"))

/-- The `where_clause` local of `update_sql`: `k = ?` per where key,
joined by `, ` (a comma, not `AND`), exactly as in the source. -/
def where_clause (whr : List (String × Value)) : String :=
  joinSep ", " (whr.map (fun p => p.1 ++ " = ?"))

/-- Model of `update_sql`:
`UPDATE <tablename> SET <set_clause> WHERE <where_clause>`. -/
def update_sql (tablename : String) (values whr : List (String × Value)) : String :=
  "UPDATE " ++ tablename ++ " SET " ++ set_clause values
    ++ " WHERE " ++ where_clause whr

/-- The merged dict built by `insert_row`:
`{"created_at": self.utcnow(), **values}`. -/
def insert_row_values (localOff now : Int) (values : List (String × Value)) :
    List (String × Value) :=
  dictMerge [("created_at", Value.dt (utcnow localOff now))] values

/-- Model of `insert_row`: the statement it executes and the parameter
tuple `tuple(values.values())` it binds, in that order. -/
def insert_row (localOff now : Int) (tablename : String)
    (values : List (String × Value)) (fallback : InsertFallback) :
    String × List Value :=
  (insert_sql tablename (insert_row_values localOff now values) fallback,
   (insert_row_values localOff now values).map Prod.snd)

/-- The merged dict built by `update_row`:
`{"updated_at": self.utcnow(), **values}`. -/
def update_row_values (localOff now : Int) (values : List (String × Value)) :
    List (String × Value) :=
  dictMerge [("updated_at", Value.dt (utcnow localOff now))] values

/-- Model of `update_row`: the statement it executes and the parameter
tuple `tuple(values.values()) + tuple(where.values())` it binds. -/
def update_row (localOff now : Int) (tablename : String)
    (values whr : List (String × Value)) : String × List Value :=
  (update_sql tablename (update_row_values localOff now values) whr,
   (update_row_values localOff now values).map Prod.snd ++ whr.map Prod.snd)

/-- C1 counterexample: with caller values `{updated_at: 5}` the merged
SET mapping binds the caller's `5`, not the freshly computed timestamp,
so the fresh value is overridden. -/
theorem update_row_updated_at_counterexample :
    update_row_values 0 0 [("updated_at", Value.int 5)]
        = [("updated_at", Value.int 5)]
    ∧ List.lookup "updated_at" (update_row_values 0 0 [("updated_at", Value.int 5)])
        ≠ some (Value.dt (utcnow 0 0)) := by
  constructor
  · rfl
  · intro h
    simp only [show update_row_values 0 0 [("updated_at", Value.int 5)]
        = [("updated_at", Value.int 5)] from rfl] at h
    rw [lookup_cons_of_eq rfl] at h
    exact absurd (Option.some.inj h) (by decide)

/-- C1 amended: in the merged SET mapping of `update_row`, `updated_at`
is always the first key; it is bound to the freshly computed current-UTC
instant exactly when the caller's values do not contain `updated_at`,
and a caller-supplied `updated_at` value overrides the fresh one
(merge-after-default, like `created_at` in `insert_row`). -/
theorem update_row_updated_at (localOff now : Int)
    (values : List (String × Value)) (hnd : (dictKeys values).Nodup) :
    (update_row_values localOff now values).head?.map Prod.fst = some "updated_at"
    ∧ ("updated_at" ∉ dictKeys values →
        update_row_values localOff now values
          = ("updated_at", Value.dt (utcnow localOff now)) :: values)
    ∧ (∀ w : Value, List.lookup "updated_at" values = some w →
        List.lookup "updated_at" (update_row_values localOff now values) = some w) := by
  refine ⟨?_, ?_, ?_⟩
  · exact (head_fst_dictMerge values [("updated_at", Value.dt (utcnow localOff now))]
      (by simp)).1
  · intro hmem
    rw [update_row_values,
      dictMerge_of_disjoint values [("updated_at", Value.dt (utcnow localOff now))]
        (by
          intro k hk
          simp only [dictKeys, List.map_cons, List.map_nil, List.mem_singleton]
          intro he
          exact hmem (he ▸ hk))
        hnd]
    rfl
  · intro w hw
    rw [update_row_values, lookup_dictMerge values _ hnd, hw, Option.or_some]

/-- Witness for C1 (amended) at caller values `{a: 9}`. -/
theorem update_row_updated_at_witness :
    (dictKeys [("a", Value.int 9)]).Nodup
    ∧ ((update_row_values 0 0 [("a", Value.int 9)]).head?.map Prod.fst
          = some "updated_at"
      ∧ ("updated_at" ∉ dictKeys [("a", Value.int 9)] →
          update_row_values 0 0 [("a", Value.int 9)]
            = ("updated_at", Value.dt (utcnow 0 0)) :: [("a", Value.int 9)])
      ∧ (∀ w : Value, List.lookup "updated_at" [("a", Value.int 9)] = some w →
          List.lookup "updated_at" (update_row_values 0 0 [("a", Value.int 9)])
            = some w)) :=
  ⟨by decide, update_row_updated_at 0 0 [("a", Value.int 9)] (by decide)⟩

/-- C2: `insert_row` generates
`INSERT OR <fallback> INTO <table>(created_at, k1, ..., kn) VALUES(?, ..., ?)`
with `created_at` first and the caller's keys following in order, bound
to the merged values in that same order; and a caller-supplied
`created_at` overrides the default fresh value (merge-after-default). -/
theorem insert_row_created_at (localOff now : Int) (tablename : String)
    (values : List (String × Value)) (fallback : InsertFallback)
    (hnd : (dictKeys values).Nodup) :
    ("created_at" ∉ dictKeys values →
        (insert_row localOff now tablename values fallback).1
          = "INSERT OR " ++ fallback.toStr ++ " INTO " ++ tablename
            ++ "(" ++ joinSep ", " ("created_at" :: dictKeys values)
            ++ ") VALUES(" ++ joinSep ", " (List.replicate (values.length + 1) "?")
            ++ ")"
        ∧ (insert_row localOff now tablename values fallback).2
          = Value.dt (utcnow localOff now) :: values.map Prod.snd)
    ∧ (∀ w : Value, List.lookup "created_at" values = some w →
        List.lookup "created_at" (insert_row_values localOff now values) = some w) := by
  constructor
  · intro hmem
    have hm : insert_row_values localOff now values
        = ("created_at", Value.dt (utcnow localOff now)) :: values := by
      rw [insert_row_values,
        dictMerge_of_disjoint values [("created_at", Value.dt (utcnow localOff now))]
          (by
            intro k hk
            simp only [dictKeys, List.map_cons, List.map_nil, List.mem_singleton]
            intro he
            exact hmem (he ▸ hk))
          hnd]
      rfl
    constructor
    · show insert_sql tablename (insert_row_values localOff now values) fallback = _
      rw [hm, insert_sql]
      have hkeys : (("created_at", Value.dt (utcnow localOff now)) :: values).map Prod.fst
          = "created_at" :: dictKeys values := by
        simp [dictKeys]
      have hph : (("created_at", Value.dt (utcnow localOff now)) :: values).map
            (fun _ => "?")
          = List.replicate (values.length + 1) "?" := by
        simp [List.replicate_succ, List.map_const']
      rw [hkeys, hph]
    · show (insert_row_values localOff now values).map Prod.snd = _
      rw [hm]
      rfl
  · intro w hw
    rw [insert_row_values, lookup_dictMerge values _ hnd, hw, Option.or_some]

/-- Witness for C2 at `values = {a: 1}` with the default fallback. -/
theorem insert_row_created_at_witness :
    (dictKeys [("a", Value.int 1)]).Nodup
    ∧ (("created_at" ∉ dictKeys [("a", Value.int 1)] →
          (insert_row 0 0 "t" [("a", Value.int 1)] InsertFallback.ROLLBACK).1
            = "INSERT OR " ++ InsertFallback.ROLLBACK.toStr ++ " INTO " ++ "t"
              ++ "(" ++ joinSep ", " ("created_at" :: dictKeys [("a", Value.int 1)])
              ++ ") VALUES("
              ++ joinSep ", " (List.replicate ([("a", Value.int 1)].length + 1) "?")
              ++ ")"
          ∧ (insert_row 0 0 "t" [("a", Value.int 1)] InsertFallback.ROLLBACK).2
            = Value.dt (utcnow 0 0) :: [("a", Value.int 1)].map Prod.snd)
      ∧ (∀ w : Value, List.lookup "created_at" [("a", Value.int 1)] = some w →
          List.lookup "created_at" (insert_row_values 0 0 [("a", Value.int 1)])
            = some w)) :=
  ⟨by decide, insert_row_created_at 0 0 "t" [("a", Value.int 1)]
    InsertFallback.ROLLBACK (by decide)⟩

/-- Character-level counterpart of `joinSep`, used to state how the
generated clause strings parse back into their fragments. -/
def joinSepL (sep : List Char) : List (List Char) → List Char
  | [] => []
  | [x] => x
  | x :: y :: xs => x ++ sep ++ joinSepL sep (y :: xs)

theorem joinSep_data (sep : String) (l : List String) :
    (joinSep sep l).data = joinSepL sep.data (l.map String.data) := by
  induction l with
  | nil => rfl
  | cons x xs ih =>
    cases xs with
    | nil => rfl
    | cons y ys =>
      show (x ++ sep ++ joinSep sep (y :: ys)).data = _
      simp [joinSepL, String.data_append, ih]

/-- Splitting a character list on every (leftmost, non-overlapping)
occurrence of the separator `sep`; `acc` holds the reversed current
fragment. -/
def splitOnSepAux (sep : List Char) : List Char → List Char → List (List Char)
  | [], acc => [acc.reverse]
  | c :: rest, acc =>
    if sep.isPrefixOf (c :: rest) then
      acc.reverse :: splitOnSepAux sep (List.drop (sep.length - 1) rest) []
    else
      splitOnSepAux sep rest (c :: acc)
termination_by s _ => s.length
decreasing_by
  all_goals simp_wf
  all_goals omega

/-- The fragments of `s` between occurrences of the separator `sep`. -/
def splitOnSep (sep s : List Char) : List (List Char) :=
  splitOnSepAux sep s []

theorem splitOnSepAux_append_no_match (sh : Char) (st frag rest acc : List Char)
    (h : sh ∉ frag) :
    splitOnSepAux (sh :: st) (frag ++ rest) acc
      = splitOnSepAux (sh :: st) rest (frag.reverse ++ acc) := by
  induction frag generalizing acc with
  | nil => simp
  | cons c f ih =>
    have hcs : sh ≠ c := fun he => h (he ▸ List.mem_cons_self c f)
    have hp : ¬(sh :: st).isPrefixOf (c :: (f ++ rest)) = true := by
      intro hpre
      obtain ⟨t, ht⟩ := List.isPrefixOf_iff_prefix.mp hpre
      exact hcs (List.cons.inj ht).1
    rw [List.cons_append]
    simp only [splitOnSepAux]
    rw [if_neg hp, ih (c :: acc) (fun hm => h (List.mem_cons_of_mem c hm))]
    congr 1
    simp

theorem splitOnSepAux_append_match (sh : Char) (st rest acc : List Char) :
    splitOnSepAux (sh :: st) ((sh :: st) ++ rest) acc
      = acc.reverse :: splitOnSepAux (sh :: st) rest [] := by
  have hp : (sh :: st).isPrefixOf (sh :: (st ++ rest)) = true :=
    List.isPrefixOf_iff_prefix.mpr ⟨rest, rfl⟩
  rw [List.cons_append]
  simp only [splitOnSepAux]
  rw [if_pos hp]
  congr 1
  have h1 : (sh :: st).length - 1 = st.length := by simp
  rw [h1, List.drop_left]

theorem splitOnSep_joinSepL (sh : Char) (st : List Char) :
    ∀ frags : List (List Char), frags ≠ [] → (∀ f ∈ frags, sh ∉ f) →
      splitOnSep (sh :: st) (joinSepL (sh :: st) frags) = frags := by
  intro frags
  induction frags with
  | nil => intro h _; exact absurd rfl h
  | cons f fs ih =>
    intro _ hmem
    cases fs with
    | nil =>
      show splitOnSepAux (sh :: st) (joinSepL (sh :: st) [f]) [] = [f]
      have hnm := splitOnSepAux_append_no_match sh st f [] [] (hmem f (by simp))
      rw [List.append_nil] at hnm
      rw [show joinSepL (sh :: st) [f] = f from rfl, hnm]
      simp only [splitOnSepAux]
      simp
    | cons f2 fs2 =>
      show splitOnSepAux (sh :: st)
          (f ++ (sh :: st) ++ joinSepL (sh :: st) (f2 :: fs2)) [] = f :: f2 :: fs2
      rw [List.append_assoc,
        splitOnSepAux_append_no_match sh st f _ [] (hmem f (by simp)),
        List.append_nil, splitOnSepAux_append_match]
      have hres := ih (by simp)
        (fun g hg => hmem g (List.mem_cons_of_mem f hg))
      rw [show splitOnSepAux (sh :: st) (joinSepL (sh :: st) (f2 :: fs2)) []
          = splitOnSep (sh :: st) (joinSepL (sh :: st) (f2 :: fs2)) from rfl, hres]
      simp

/-- A declared column: literal SQL name and type fragments. -/
structure Column where
  name : String
  type : String
deriving DecidableEq

/-- A declared table: a name and its ordered columns. -/
structure Table where
  name : String
  columns : List Column
deriving DecidableEq

/-- The `column_defs` local of `create_table_sql`: `<name> <type>` per
column, joined with `,\n`. -/
def column_defs (table : Table) : String :=
  joinSep ",\n" (table.columns.map (fun col => col.name ++ " " ++ col.type))

/-- Model of `create_table_sql`: the triple-quoted f-string
`CREATE TABLE IF NOT EXISTS <name> (\n        <column_defs>\n    )`. -/
def create_table_sql (table : Table) : String :=
  "CREATE TABLE IF NOT EXISTS " ++ table.name ++ " (\n        "
    ++ column_defs table ++ "\n    )"

/-- C5: `create_table_sql` wraps the body in
`CREATE TABLE IF NOT EXISTS <name> ( ... )`, and the body parses back
(by splitting on the `,\n` join separator) into exactly the fragments
`<name> <type>`, one per declared column, in declaration order — each
fragment appearing exactly once as a comma-separated item.  Comma-free
column names and types keep the fragments unambiguous. -/
theorem create_table_sql_columns (t : Table) (hne : t.columns ≠ [])
    (hc : ∀ col ∈ t.columns,
      (',' : Char) ∉ col.name.data ∧ (',' : Char) ∉ col.type.data) :
    create_table_sql t
      = "CREATE TABLE IF NOT EXISTS " ++ t.name ++ " (\n        "
        ++ column_defs t ++ "\n    )"
    ∧ splitOnSep (",\n" : String).data (column_defs t).data
      = t.columns.map (fun col => (col.name ++ " " ++ col.type).data) := by
  refine ⟨rfl, ?_⟩
  rw [column_defs, joinSep_data, List.map_map]
  rw [show (",\n" : String).data = ',' :: ['\n'] from rfl]
  rw [splitOnSep_joinSepL ',' ['\n']
    (t.columns.map (String.data ∘ fun col => col.name ++ " " ++ col.type))
    (by simpa using hne)
    (by
      intro f hf
      obtain ⟨col, hcol, rfl⟩ := List.mem_map.mp hf
      intro habs
      simp only [Function.comp_apply, String.data_append] at habs
      rcases List.mem_append.mp habs with h1 | h2
      · rcases List.mem_append.mp h1 with h3 | h4
        · exact (hc col hcol).1 h3
        · simp at h4
      · exact (hc col hcol).2 h2)]
  simp [Function.comp]

/-- Witness for C5 at a concrete two-column table. -/
theorem create_table_sql_columns_witness :
    (Table.mk "t" [Column.mk "id" "INTEGER", Column.mk "label" "TEXT"]).columns ≠ []
    ∧ (∀ col ∈ (Table.mk "t" [Column.mk "id" "INTEGER",
          Column.mk "label" "TEXT"]).columns,
        (',' : Char) ∉ col.name.data ∧ (',' : Char) ∉ col.type.data)
    ∧ (create_table_sql (Table.mk "t" [Column.mk "id" "INTEGER",
          Column.mk "label" "TEXT"])
        = "CREATE TABLE IF NOT EXISTS "
          ++ (Table.mk "t" [Column.mk "id" "INTEGER",
              Column.mk "label" "TEXT"]).name
          ++ " (\n        "
          ++ column_defs (Table.mk "t" [Column.mk "id" "INTEGER",
              Column.mk "label" "TEXT"])
          ++ "\n    )"
      ∧ splitOnSep (",\n" : String).data
          (column_defs (Table.mk "t" [Column.mk "id" "INTEGER",
            Column.mk "label" "TEXT"])).data
        = (Table.mk "t" [Column.mk "id" "INTEGER",
            Column.mk "label" "TEXT"]).columns.map
            (fun col => (col.name ++ " " ++ col.type).data)) :=
  ⟨by decide, by decide,
   create_table_sql_columns
     (Table.mk "t" [Column.mk "id" "INTEGER", Column.mk "label" "TEXT"])
     (by decide) (by decide)⟩

/-- C4: the WHERE clause of `update_row` is the `k = ?` equality
condition per where key joined by the comma separator `, ` (not `AND`):
splitting the clause on `, ` recovers exactly the conditions in order;
and the statement is executed bound to the SET values followed by the
WHERE values, in that concatenation order. -/
theorem update_row_where_comma (localOff now : Int) (tablename : String)
    (values whr : List (String × Value)) (hne : whr ≠ [])
    (hc : ∀ p ∈ whr, (',' : Char) ∉ p.1.data) :
    splitOnSep (", " : String).data (where_clause whr).data
      = whr.map (fun p => (p.1 ++ " = ?").data)
    ∧ (update_row localOff now tablename values whr).1
      = "UPDATE " ++ tablename ++ " SET "
        ++ set_clause (update_row_values localOff now values)
        ++ " WHERE " ++ where_clause whr
    ∧ (update_row localOff now tablename values whr).2
      = (update_row_values localOff now values).map Prod.snd
        ++ whr.map Prod.snd := by
  refine ⟨?_, rfl, rfl⟩
  rw [where_clause, joinSep_data, List.map_map]
  rw [show (", " : String).data = ',' :: [' '] from rfl]
  rw [splitOnSep_joinSepL ',' [' ']
    (whr.map (String.data ∘ fun p => p.1 ++ " = ?"))
    (by simpa using hne)
    (by
      intro f hf
      obtain ⟨p, hp, rfl⟩ := List.mem_map.mp hf
      intro habs
      simp only [Function.comp_apply, String.data_append] at habs
      rcases List.mem_append.mp habs with h1 | h2
      · exact hc p hp h1
      · simp at h2)]
  simp [Function.comp]

/-- Witness for C4 at `values = {a: 9}`, `where = {id: 1}`. -/
theorem update_row_where_comma_witness :
    ([(("id" : String), Value.int 1)] ≠ [])
    ∧ (∀ p ∈ [(("id" : String), Value.int 1)], (',' : Char) ∉ p.1.data)
    ∧ (splitOnSep (", " : String).data
          (where_clause [(("id" : String), Value.int 1)]).data
        = [(("id" : String), Value.int 1)].map (fun p => (p.1 ++ " = ?").data)
      ∧ (update_row 0 0 "t" [("a", Value.int 9)] [("id", Value.int 1)]).1
        = "UPDATE " ++ "t" ++ " SET "
          ++ set_clause (update_row_values 0 0 [("a", Value.int 9)])
          ++ " WHERE " ++ where_clause [("id", Value.int 1)]
      ∧ (update_row 0 0 "t" [("a", Value.int 9)] [("id", Value.int 1)]).2
        = (update_row_values 0 0 [("a", Value.int 9)]).map Prod.snd
          ++ [(("id" : String), Value.int 1)].map Prod.snd) :=
  ⟨by decide, by decide,
   update_row_where_comma 0 0 "t" [("a", Value.int 9)] [("id", Value.int 1)]
     (by decide) (by decide)⟩

/-- Observable connection state of a `DB` handle: whether the
`cached_property conn` has been materialised, and the statements
executed so far, in order. -/
structure ConnState where
  opened : Bool
  trace : List String
deriving DecidableEq

/-- The statements the `conn` property runs when the connection is first
opened: `pragma journal_mode=wal` followed by `pragma <p>` for each
configured pragma, in order. -/
def open_statements (pragmas : List String) : List String :=
  ("journal_mode=wal" :: pragmas).map (fun p => "pragma " ++ p)

/-- Model of `DB.execute`'s effect on the connection state: touching
`self.conn` opens the connection (running the pragma statements) if it
is not yet open, then the statement itself is executed. -/
def execute_traced (pragmas : List String) (st : ConnState) (stmt : String) :
    ConnState :=
  if st.opened then
    { st with trace := st.trace ++ [stmt] }
  else
    { opened := true, trace := st.trace ++ open_statements pragmas ++ [stmt] }

/-- Model of `DB.setup`: runs `t.create(self)` — that is, executes
`create_table_sql t` — for each declared table in order. -/
def setup_traced (pragmas : List String) (tables : List Table) (st : ConnState) :
    ConnState :=
  tables.foldl (fun s t => execute_traced pragmas s (create_table_sql t)) st

theorem setup_traced_opened (tables : List Table) :
    ∀ (pragmas : List String) (tr : List String),
      setup_traced pragmas tables ⟨true, tr⟩
        = ⟨true, tr ++ tables.map create_table_sql⟩ := by
  induction tables with
  | nil => intro pragmas tr; simp [setup_traced]
  | cons t ts ih =>
    intro pragmas tr
    have hstep : execute_traced pragmas ⟨true, tr⟩ (create_table_sql t)
        = ⟨true, tr ++ [create_table_sql t]⟩ := by
      simp [execute_traced]
    calc setup_traced pragmas (t :: ts) ⟨true, tr⟩
        = setup_traced pragmas ts (execute_traced pragmas ⟨true, tr⟩
            (create_table_sql t)) := rfl
      _ = setup_traced pragmas ts ⟨true, tr ++ [create_table_sql t]⟩ := by
            rw [hstep]
      _ = ⟨true, tr ++ [create_table_sql t] ++ ts.map create_table_sql⟩ := ih _ _
      _ = ⟨true, tr ++ (t :: ts).map create_table_sql⟩ := by
            simp

/-- C6 counterexample: with one configured pragma and an empty table
list, no statement at all is executed during setup — the lazily-cached
connection is never forced, so the claimed
`journal_mode=wal`-then-pragmas sequence does not run. -/
theorem setup_trace_counterexample :
    (setup_traced ["foreign_keys=ON"] [] ⟨false, []⟩).trace = []
    ∧ (setup_traced ["foreign_keys=ON"] [] ⟨false, []⟩).trace
      ≠ "pragma journal_mode=wal"
        :: (["foreign_keys=ON"].map (fun p => "pragma " ++ p)
            ++ ([] : List Table).map create_table_sql) := by
  constructor
  · rfl
  · intro h
    rw [show (setup_traced ["foreign_keys=ON"] [] ⟨false, []⟩).trace = []
      from rfl] at h
    simp at h

/-- C6 amended: provided at least one table is declared (so setup forces
the lazily-opened connection), the statements executed during
open/setup are exactly `pragma journal_mode=wal` first, then
`pragma <p>` for each configured pragma in order, then each declared
table's CREATE TABLE statement in declaration order.  (With an empty
table list nothing executes during setup; the pragmas run later, at the
first `execute`.) -/
theorem setup_trace (pragmas : List String) (tables : List Table)
    (hne : tables ≠ []) :
    (setup_traced pragmas tables ⟨false, []⟩).trace
      = "pragma journal_mode=wal"
        :: (pragmas.map (fun p => "pragma " ++ p)
            ++ tables.map create_table_sql) := by
  cases tables with
  | nil => exact absurd rfl hne
  | cons t ts =>
    have hstep : execute_traced pragmas ⟨false, []⟩ (create_table_sql t)
        = ⟨true, open_statements pragmas ++ [create_table_sql t]⟩ := by
      simp [execute_traced]
    calc (setup_traced pragmas (t :: ts) ⟨false, []⟩).trace
        = (setup_traced pragmas ts (execute_traced pragmas ⟨false, []⟩
            (create_table_sql t))).trace := rfl
      _ = (setup_traced pragmas ts ⟨true, open_statements pragmas
            ++ [create_table_sql t]⟩).trace := by rw [hstep]
      _ = open_statements pragmas ++ [create_table_sql t]
            ++ ts.map create_table_sql := by rw [setup_traced_opened]
      _ = _ := by simp [open_statements]

/-- Witness for C6 (amended) at one pragma and one declared table. -/
theorem setup_trace_witness :
    ([Table.mk "t" [Column.mk "id" "INTEGER"]] ≠ [])
    ∧ (setup_traced ["foreign_keys=ON"] [Table.mk "t" [Column.mk "id" "INTEGER"]]
          ⟨false, []⟩).trace
      = "pragma journal_mode=wal"
        :: (["foreign_keys=ON"].map (fun p => "pragma " ++ p)
            ++ [Table.mk "t" [Column.mk "id" "INTEGER"]].map create_table_sql) :=
  ⟨by decide,
   setup_trace ["foreign_keys=ON"] [Table.mk "t" [Column.mk "id" "INTEGER"]]
     (by decide)⟩

/-- Model of the sequence branch of `DB.execute`'s parameter handling:
`[self.value_for_db(v) for v in values]`, stopping at the first failed
precondition. -/
def coerce_values_list (localOff : Int) : List Value → Except String (List Value)
  | [] => .ok []
  | v :: vs =>
    match value_for_db localOff v with
    | .error e => .error e
    | .ok w =>
      match coerce_values_list localOff vs with
      | .error e => .error e
      | .ok ws => .ok (w :: ws)

/-- Model of the mapping branch of `DB.execute`'s parameter handling:
`{k: self.value_for_db(v) for k, v in values.items()}`. -/
def coerce_values_mapping (localOff : Int) :
    List (String × Value) → Except String (List (String × Value))
  | [] => .ok []
  | (k, v) :: kvs =>
    match value_for_db localOff v with
    | .error e => .error e
    | .ok w =>
      match coerce_values_mapping localOff kvs with
      | .error e => .error e
      | .ok rest => .ok ((k, w) :: rest)

/-- C7: when `execute` binds a sequence, coercion is applied elementwise
and the coerced sequence preserves the original order (the element at
each index is the coercion of the original element at that index); when
it binds a keyed mapping, the result has exactly the original keys in
order, each mapped to the coercion of its original value. -/
theorem execute_coercion (localOff : Int) :
    (∀ (vs out : List Value), coerce_values_list localOff vs = .ok out →
      out.length = vs.length
      ∧ ∀ i : Nat, i < vs.length →
          value_for_db localOff (vs.getD i Value.none)
            = .ok (out.getD i Value.none))
    ∧ (∀ (kvs out : List (String × Value)),
        coerce_values_mapping localOff kvs = .ok out →
      out.map Prod.fst = kvs.map Prod.fst
      ∧ ∀ i : Nat, i < kvs.length →
          value_for_db localOff ((kvs.getD i ("", Value.none)).2)
            = .ok ((out.getD i ("", Value.none)).2)) := by
  constructor
  · intro vs
    induction vs with
    | nil =>
      intro out h
      obtain rfl : ([] : List Value) = out := Except.ok.inj h
      exact ⟨rfl, fun i hi => absurd hi (by simp)⟩
    | cons v vs ih =>
      intro out h
      rw [coerce_values_list] at h
      cases hv : value_for_db localOff v with
      | error e => rw [hv] at h; cases h
      | ok w =>
        rw [hv] at h
        cases hr : coerce_values_list localOff vs with
        | error e => rw [hr] at h; cases h
        | ok ws =>
          rw [hr] at h
          obtain rfl : w :: ws = out := Except.ok.inj h
          obtain ⟨hlen, hidx⟩ := ih ws hr
          refine ⟨by simp [hlen], ?_⟩
          intro i hi
          cases i with
          | zero => simpa using hv
          | succ n =>
            simp only [List.getD_cons_succ]
            exact hidx n (by simpa using hi)
  · intro kvs
    induction kvs with
    | nil =>
      intro out h
      obtain rfl : ([] : List (String × Value)) = out := Except.ok.inj h
      exact ⟨rfl, fun i hi => absurd hi (by simp)⟩
    | cons p kvs ih =>
      intro out h
      obtain ⟨k, v⟩ := p
      rw [coerce_values_mapping] at h
      cases hv : value_for_db localOff v with
      | error e => rw [hv] at h; cases h
      | ok w =>
        rw [hv] at h
        cases hr : coerce_values_mapping localOff kvs with
        | error e => rw [hr] at h; cases h
        | ok rest =>
          rw [hr] at h
          obtain rfl : (k, w) :: rest = out := Except.ok.inj h
          obtain ⟨hkeys, hidx⟩ := ih rest hr
          refine ⟨by simp [hkeys], ?_⟩
          intro i hi
          cases i with
          | zero => simpa using hv
          | succ n =>
            simp only [List.getD_cons_succ]
            exact hidx n (by simpa using hi)

/-- Witness for C7 at a one-element sequence and a one-entry mapping. -/
theorem execute_coercion_witness :
    (coerce_values_list 0 [Value.int 3] = .ok [Value.int 3]
      ∧ ([Value.int 3].length = [Value.int 3].length
        ∧ ∀ i : Nat, i < [Value.int 3].length →
            value_for_db 0 ([Value.int 3].getD i Value.none)
              = .ok ([Value.int 3].getD i Value.none)))
    ∧ (coerce_values_mapping 0 [("a", Value.int 3)] = .ok [("a", Value.int 3)]
      ∧ ([("a", Value.int 3)].map Prod.fst = [("a", Value.int 3)].map Prod.fst
        ∧ ∀ i : Nat, i < [("a", Value.int 3)].length →
            value_for_db 0 (([("a", Value.int 3)].getD i ("", Value.none)).2)
              = .ok (([("a", Value.int 3)].getD i ("", Value.none)).2))) :=
  ⟨⟨rfl, (execute_coercion 0).1 [Value.int 3] [Value.int 3] rfl⟩,
   ⟨rfl, (execute_coercion 0).2 [("a", Value.int 3)] [("a", Value.int 3)] rfl⟩⟩

/-- A heap of Python list objects with element type `α`, addressed by
object identity. -/
def Heap (α : Type) : Type := Nat → List α

/-- Reading a list object through a reference. -/
def heapGet {α : Type} (h : Heap α) (r : Nat) : List α := h r

/-- `lst.append(x)` through a reference: mutates the one referenced
object, leaving every other object unchanged. -/
def heapAppendAt {α : Type} (h : Heap α) (r : Nat) (x : α) : Heap α :=
  fun r' => if r' = r then h r ++ [x] else h r'

/-- Identity of the single list object created when the class body line
`pragmas: List[str] = []` is evaluated — once, at class definition. -/
def default_pragmas_ref : Nat := 0

/-- Identity of the single list object created by
`tables: List[Table] = []` at class definition. -/
def default_tables_ref : Nat := 1

/-- The list-valued fields of a `DB` instance, as object references. -/
structure DBRefs where
  pragmasRef : Nat
  tablesRef : Nat
deriving DecidableEq

/-- Model of the `attr.s` constructor of `DB` for its list fields: an
omitted argument binds the field to the class-level default object
itself (attrs uses a plain `= []` default as-is; it is not copied per
instance). -/
def mkDB (pragmasArg tablesArg : Option Nat) : DBRefs :=
  { pragmasRef := pragmasArg.getD default_pragmas_ref,
    tablesRef := tablesArg.getD default_tables_ref }

/-- C9: any two handles both constructed without an explicit `pragmas`
argument share one mutable pragmas list object (likewise for `tables`),
so appending through one handle is observable through the other. -/
theorem shared_default_lists (α : Type) (t1 t2 p1 p2 : Option Nat)
    (h : Heap α) (x : α) :
    (mkDB Option.none t1).pragmasRef = (mkDB Option.none t2).pragmasRef
    ∧ heapGet (heapAppendAt h (mkDB Option.none t1).pragmasRef x)
        (mkDB Option.none t2).pragmasRef
      = heapGet h (mkDB Option.none t2).pragmasRef ++ [x]
    ∧ (mkDB p1 Option.none).tablesRef = (mkDB p2 Option.none).tablesRef
    ∧ heapGet (heapAppendAt h (mkDB p1 Option.none).tablesRef x)
        (mkDB p2 Option.none).tablesRef
      = heapGet h (mkDB p2 Option.none).tablesRef ++ [x] := by
  refine ⟨rfl, ?_, rfl, ?_⟩ <;> simp [mkDB, heapGet, heapAppendAt]
